import Mathlib

/-!
Verification of the RAG core of the `cli-document-q&a-system`
(`document-manager.ts`, `file-processor.ts`, `cli.ts`), shallowly embedded
in Lean 4.  Text is modelled as `List Char`, JS string primitives
(`slice`, `trim`, `lastIndexOf`) are given explicit definitions matching
ECMAScript semantics on integer arguments, and the PostgreSQL store is
modelled as a list of records.  Definitions come first, then all lemmas and
claim theorems.
-/

set_option maxRecDepth 4000

/-! ## JS string primitives -/

/-- `pat` occurs in `text` starting at index `i`. -/
def matchesAt (text pat : List Char) (i : Nat) : Bool :=
  pat.isPrefixOf (text.drop i)

/-- Largest index `i ≤ n` at which `pat` matches in `text`, or `-1`. -/
def lastMatchLE (text pat : List Char) : Nat → Int
  | 0 => if matchesAt text pat 0 then 0 else -1
  | n+1 => if matchesAt text pat (n+1) then ((n+1 : Nat) : Int) else lastMatchLE text pat n

/-- ECMAScript `String.prototype.lastIndexOf(pat, pos)`: the largest match
index that is `≤ pos` (a negative `pos` behaves like `0`), or `-1`. -/
def jsLastIndexOf (text pat : List Char) (pos : Int) : Int :=
  lastMatchLE text pat (if pos < 0 then 0 else min pos.toNat text.length)

/-- ECMAScript `String.prototype.slice(s, e)` with clamping and
negative-index-from-the-end semantics. -/
def jsSlice (text : List Char) (s e : Int) : List Char :=
  if (if s < 0 then max ((text.length : Int) + s) 0 else min s (text.length : Int)) <
      (if e < 0 then max ((text.length : Int) + e) 0 else min e (text.length : Int)) then
    (text.take
        (if e < 0 then max ((text.length : Int) + e) 0 else min e (text.length : Int)).toNat).drop
      (if s < 0 then max ((text.length : Int) + s) 0 else min s (text.length : Int)).toNat
  else []

/-- ECMAScript `String.prototype.trim()`: strip whitespace at both ends. -/
def jsTrim (l : List Char) : List Char :=
  ((l.dropWhile Char.isWhitespace).reverse.dropWhile Char.isWhitespace).reverse

/-! ## The chunker (`splitIntoChunks`, document-manager.ts lines 115-145) -/

/-- The breakpoint delimiters tried in priority order:
`['\n\n', '\n', '. ', '!', '?', ';']`. -/
def breakChars : List (List Char) :=
  [['\n', '\n'], ['\n'], ['.', ' '], ['!'], ['?'], [';']]

/-- The breakpoint-search loop body: for each delimiter in order, take the
last occurrence at or before `pos`; accept it if it lies strictly after
`start + chunkSize * 0.5` (stated over `Int` as `2*i > 2*start + chunkSize`),
returning the index just past the delimiter, else try the next delimiter.
`-1` when no delimiter is accepted. -/
def findBreakIn (text : List Char) (start : Int) (chunkSize : Nat) (pos : Int) :
    List (List Char) → Int
  | [] => -1
  | bc :: rest =>
    if 2 * jsLastIndexOf text bc pos > 2 * start + (chunkSize : Int) then
      jsLastIndexOf text bc pos + bc.length
    else findBreakIn text start chunkSize pos rest

/-- `bestBreak` as computed by the `for (const breakChar of breakChars)` loop. -/
def findBreak (text : List Char) (start : Int) (chunkSize : Nat) (pos : Int) : Int :=
  findBreakIn text start chunkSize pos breakChars

/-- The `end` position chosen for the window starting at `start`:
tentatively `start + chunkSize`; if that lands before the end of the text and
an acceptable breakpoint exists, the breakpoint position. -/
def chunkEnd (text : List Char) (chunkSize : Nat) (start : Int) : Int :=
  if start + (chunkSize : Int) < (text.length : Int) then
    if findBreak text start chunkSize (start + chunkSize) > -1 then
      findBreak text start chunkSize (start + chunkSize)
    else start + chunkSize
  else start + chunkSize

/-- The scan loop of `splitIntoChunks`, recorded at the level of the
`(start, end)` intervals it pushes.  `fuel` bounds the number of iterations;
`none` means the loop was still running when fuel ran out (the JS loop has no
such bound and can diverge). -/
def chunkLoopI (text : List Char) (chunkSize overlap : Nat) :
    Nat → Int → Option (List (Int × Int))
  | 0, start => if start < (text.length : Int) then none else some []
  | fuel+1, start =>
    if start < (text.length : Int) then
      (chunkLoopI text chunkSize overlap fuel (chunkEnd text chunkSize start - overlap)).map
        (fun rest => (start, chunkEnd text chunkSize start) :: rest)
    else some []

/-- The string pushed for an interval: `text.slice(start, end).trim()`. -/
def chunkOfInterval (text : List Char) (iv : Int × Int) : List Char :=
  jsTrim (jsSlice text iv.1 iv.2)

/-- `splitIntoChunks(text, chunkSize, overlap)`: run the scan loop from
`start = 0`, turn each interval into its trimmed slice, and keep only chunks
with `chunk.length > 20`.  Fuel `text.length + 1` is sufficient whenever the
JS loop terminates at all (each iteration must advance `start` by at least
one for the loop to be finite). -/
def splitIntoChunks (text : List Char) (chunkSize overlap : Nat) : List (List Char) :=
  ((chunkLoopI text chunkSize overlap (text.length + 1) 0).map
    (fun ivs => (ivs.map (chunkOfInterval text)).filter (fun c => 20 < c.length))).getD []

/-- The text used to exhibit a stalled scan loop: the accepted `'\n\n'`
breakpoint at index 5 makes `end = 7`, and with `overlap = 7` the next
`start` is `7 - 7 = 0` again. -/
def stallText : List Char := "abcde\n\nabcdefghij".toList

/-! ## The ingestion pipeline (`ingestFile`, document-manager.ts lines 147-195,
and the CLI ingest loop, cli.ts lines 72-77) -/

/-- A processed file as handed to `ingestFile` (`ProcessedFile`). -/
structure PFile where
  path : String
  content : List Char
  ftype : String
deriving DecidableEq

/-- A persisted row of `document_chunks`: chunk id, chunk text and the
metadata fields the claims are about.  The embedding vector itself plays no
role in the store-state claims and is abstracted away. -/
structure Record where
  chunk_id : String
  content : List Char
  source : String
  chunkIndex : Nat
  fileType : String
deriving DecidableEq, Inhabited

/-- `DELETE FROM document_chunks WHERE metadata->>'source' = $1`. -/
def deleteSource (db : List Record) (src : String) : List Record :=
  db.filter (fun r => r.source ≠ src)

/-- The records built for the chunks of one file, with ids
`` `${file.path}_chunk_${i}` `` and metadata `{source, chunkIndex, fileType}`. -/
def recsFrom (p t : String) : Nat → List (List Char) → List Record
  | _, [] => []
  | i, c :: rest =>
    { chunk_id := p ++ "_chunk_" ++ toString i, content := c, source := p,
      chunkIndex := i, fileType := t } :: recsFrom p t (i+1) rest

/-- The complete new record set for a file: one record per chunk of
`splitIntoChunks(file.content)` with the default `chunkSize = 600`,
`overlap = 100`. -/
def newRecords (f : PFile) : List Record :=
  recsFrom f.path f.ftype 0 (splitIntoChunks f.content 600 100)

/-- `ingestFile`: first delete every record of the file's source, then embed
and insert the chunks one at a time; any error is rethrown.  `failAt = some i`
(with `i` below the chunk count) models the first embedding/insert failure
happening while chunk `i` is processed: chunks `0..i-1` are already
committed, the error is surfaced (`Option.some`), and the loop stops.
Returns (surfaced error, store state visible after the call). -/
def ingestFile (db : List Record) (f : PFile) (failAt : Option Nat) :
    Option String × List Record :=
  match failAt with
  | none => (none, deleteSource db f.path ++ newRecords f)
  | some i =>
    if i < (newRecords f).length then
      (some ("Error ingesting file " ++ f.path),
        deleteSource db f.path ++ (newRecords f).take i)
    else (none, deleteSource db f.path ++ newRecords f)

/-- The CLI ingest loop (cli.ts): `for` over the files with a plain
`await documentManager.ingestFile(file)` and no per-file catch, so a rethrown
error propagates and ends the loop.  Returns (propagated error, final store
state, paths of the documents that were fully ingested). -/
def ingestBatch (db : List Record) : List (PFile × Option Nat) →
    Option String × List Record × List String
  | [] => (none, db, [])
  | (f, failAt) :: rest =>
    match ingestFile db f failAt with
    | (some e, db1) => (some e, db1, [])
    | (none, db1) =>
      match ingestBatch db1 rest with
      | (err, db2, done) => (err, db2, f.path :: done)

/-- At most one generation of records per source: any two records sharing a
`source` have distinct ordinal chunk indices. -/
def oneGeneration (db : List Record) : Prop :=
  ∀ p : String, ((db.filter (fun r => r.source = p)).map (fun r => r.chunkIndex)).Nodup

/-- A sample previously stored record for source `"f.txt"`. -/
def oldRec : Record :=
  { chunk_id := "f.txt_chunk_0", content := List.replicate 30 'b', source := "f.txt",
    chunkIndex := 0, fileType := "txt" }

/-- A sample file for source `"f.txt"` whose content yields one chunk. -/
def fileF : PFile := { path := "f.txt", content := List.replicate 30 'a', ftype := "txt" }

/-- A sample file for source `"g.txt"` whose content yields one chunk. -/
def fileG : PFile := { path := "g.txt", content := List.replicate 40 'c', ftype := "txt" }

/-! ## Retrieval & answer pipeline (`searchSimilarChunks` / `askQuestion`,
document-manager.ts lines 198-293) -/

/-- A row returned by the similarity search: the record together with its
similarity `1 - (embedding <=> query)` to the embedded question, abstracted
as a rational. -/
structure SearchHit where
  row : Record
  similarity : ℚ
deriving DecidableEq, Inhabited

/-- Insertion into a list ranked by strictly descending-or-equal similarity
(stable: equal similarities keep earlier elements first). -/
def insertByDescSim (r : SearchHit) : List SearchHit → List SearchHit
  | [] => [r]
  | x :: xs =>
    if x.similarity < r.similarity then r :: x :: xs else x :: insertByDescSim r xs

/-- Ranking by descending similarity — the `ORDER BY embedding <=> $1`
(ascending distance) of the search query. -/
def sortByDescSim : List SearchHit → List SearchHit
  | [] => []
  | x :: xs => insertByDescSim x (sortByDescSim xs)

/-- `searchSimilarChunks(query, topK)`: embed the query, rank every stored
record by descending similarity to it, and return the top `topK` rows
(`LIMIT $2`). -/
def searchSimilarChunks (db : List Record) (sim : Record → ℚ) (topK : Nat) :
    List SearchHit :=
  (sortByDescSim (db.map (fun r => ⟨r, sim r⟩))).take topK

/-- Node `path.basename` for POSIX paths without trailing separators: the
component after the last `'/'`. -/
def basename (p : String) : String :=
  ((p.toList.reverse.takeWhile (fun c => c ≠ '/')).reverse).asString

/-- Helper for `jsSetDedup`: keep the elements not seen before, front to
back, remembering what has been emitted. -/
def jsSetDedupAux (seen : List String) : List String → List String
  | [] => []
  | x :: xs =>
    if x ∈ seen then jsSetDedupAux seen xs else x :: jsSetDedupAux (x :: seen) xs

/-- `Array.from(new Set(xs))`: deduplication keeping first occurrences in
insertion order. -/
def jsSetDedup (l : List String) : List String := jsSetDedupAux [] l

/-- The relevance threshold `0.3`, as the rational `3/10` in normal form
(numerator/denominator representation, so that comparisons against it
compute). -/
def relevanceThreshold : ℚ := ⟨3, 10, by norm_num, by norm_num⟩

/-- The "no documents ingested" sentinel string. -/
def noDocsMsg : String :=
  "❌ No documents have been ingested yet. Please ingest some documents first using --ingest."

/-- The "no relevant information" sentinel string. -/
def noRelevantMsg : String :=
  "🤔 I couldn\x27t find relevant information in the ingested documents to answer your question."

/-- The context block: each retrieved chunk annotated with its source
basename, joined by `\n\n---\n\n`, in ranked order. -/
def contextOf (hits : List SearchHit) : String :=
  String.intercalate "\n\n---\n\n"
    (hits.map (fun h => "[Source: " ++ basename h.row.source ++ "]\n" ++ String.mk h.row.content))

/-- The generation prompt built around the context and the question. -/
def promptFor (context question : String) : String :=
  "You are a helpful assistant answering questions based on provided documentation.\n\n    Context from documents:\n    "
    ++ context
    ++ "\n\n    Question: "
    ++ question
    ++ "\n\n    Instructions:\n    - Answer based only on the provided context\n    - If the context doesn\x27t contain enough information, say so clearly\n    - Be specific and reference the sources when possible\n    - Keep the answer concise but complete\n    - Format your response in a friendly, conversational tone\n\n    Answer:"

/-- The observable outcome of one `askQuestion` call: the returned string,
the rows whose text was included in the generation context, the
deduplicated source list appended to the answer, and how many times the
Embedding and Generation Clients were invoked. -/
structure AskTrace where
  result : String
  contextRows : List SearchHit
  sourcesAppended : List String
  embedCalls : Nat
  genCalls : Nat
deriving DecidableEq

/-- `askQuestion(question, maxResults)`: empty store → "no documents"
sentinel with no client calls; otherwise run the search (one Embedding
Client call); no results or top similarity `< 0.3` → "no relevant
information" sentinel with no generation; otherwise build the context from
ALL retrieved rows, invoke the Generation Client once, and append
`\n\n📚 Sources: ` with the deduplicated basenames of the retrieved rows. -/
def askQuestion (db : List Record) (sim : Record → ℚ) (gen : String → String)
    (question : String) (maxResults : Nat) : AskTrace :=
  if db.length = 0 then
    { result := noDocsMsg, contextRows := [], sourcesAppended := [],
      embedCalls := 0, genCalls := 0 }
  else if (searchSimilarChunks db sim maxResults).length = 0 ∨
      ((searchSimilarChunks db sim maxResults).headI).similarity < relevanceThreshold then
    { result := noRelevantMsg, contextRows := [], sourcesAppended := [],
      embedCalls := 1, genCalls := 0 }
  else
    { result := gen (promptFor (contextOf (searchSimilarChunks db sim maxResults)) question)
        ++ "\n\n📚 Sources: "
        ++ String.intercalate ", " (jsSetDedup ((searchSimilarChunks db sim maxResults).map
            (fun h => basename h.row.source))),
      contextRows := searchSimilarChunks db sim maxResults,
      sourcesAppended := jsSetDedup ((searchSimilarChunks db sim maxResults).map
        (fun h => basename h.row.source)),
      embedCalls := 1, genCalls := 1 }

/-- A sample stored record under source `"docs/a.txt"`. -/
def recA : Record :=
  { chunk_id := "docs/a.txt_chunk_0", content := ['x'], source := "docs/a.txt",
    chunkIndex := 0, fileType := "txt" }

/-- A sample stored record under source `"docs/b.txt"`. -/
def recB : Record :=
  { chunk_id := "docs/b.txt_chunk_0", content := ['y'], source := "docs/b.txt",
    chunkIndex := 0, fileType := "txt" }

/-- A similarity assignment making `recA` highly relevant (0.9) and `recB`
irrelevant (0.1, below the 0.3 threshold). -/
def simAB : Record → ℚ :=
  fun r => if r.source = "docs/a.txt" then ⟨9, 10, by norm_num, by norm_num⟩
    else ⟨1, 10, by norm_num, by norm_num⟩

/-! ## JSON text extraction (`extractTextFromJson`, file-processor.ts
lines 55-79) -/

mutual
/-- A JSON value.  The duck-typed traversal in the source distinguishes
strings, arrays, and non-null objects; numbers, booleans and `null`
contribute nothing.  Object fields are kept in document (insertion)
order. -/
inductive Json where
  | str (s : String)
  | num (n : Int)
  | bool (b : Bool)
  | null
  | arr (items : JsonArr)
  | obj (fields : JsonObj)

/-- The element list of a JSON array. -/
inductive JsonArr where
  | nil
  | cons (hd : Json) (tl : JsonArr)

/-- The field list of a JSON object. -/
inductive JsonObj where
  | nil
  | cons (key : String) (val : Json) (tl : JsonObj)
end

mutual
/-- The recursive `extractText(obj, prefix)` helper of the source, as the
list of strings pushed to `textParts` in push order.  The `prefix` argument
is threaded exactly as in the source (and never affects the output). -/
def extractTextJ (pfx : String) : Json → List String
  | .str s => [s]
  | .num _ => []
  | .bool _ => []
  | .null => []
  | .arr items => extractTextArr pfx 0 items
  | .obj fields => extractTextObj pfx fields

/-- `obj.forEach((item, index) => extractText(item, prefix[index]))`. -/
def extractTextArr (pfx : String) (i : Nat) : JsonArr → List String
  | .nil => []
  | .cons item rest =>
    extractTextJ (pfx ++ "[" ++ toString i ++ "]") item
      ++ extractTextArr pfx (i+1) rest

/-- `Object.entries(obj).forEach(([key, value]) => ...)`: a string value of
length `> 10` is pushed as `key: value`; any other value is recursed into
with the extended prefix (for a string of length `≤ 10` that recursion
pushes the bare string). -/
def extractTextObj (pfx : String) : JsonObj → List String
  | .nil => []
  | .cons k v rest =>
    (match v with
     | .str s => if 10 < s.length then [k ++ ": " ++ s] else [s]
     | _ => extractTextJ (if pfx = "" then k else pfx ++ "." ++ k) v)
      ++ extractTextObj pfx rest
end

/-- `extractTextFromJson(data)`: run the traversal from the root with the
empty prefix and join the collected parts with `"\n\n"`. -/
def extractTextFromJson (j : Json) : String :=
  String.intercalate "\n\n" (extractTextJ "" j)

mutual
/-- The emission sequence as the claim describes it: a deterministic
depth-first document-order traversal with no prefix bookkeeping; an object
entry whose value is a string of length `> 10` is emitted as `key: value`,
every other string leaf is emitted bare. -/
def specEmit : Json → List String
  | .str s => [s]
  | .num _ => []
  | .bool _ => []
  | .null => []
  | .arr items => specEmitArr items
  | .obj fields => specEmitObj fields

/-- Claim-side emission for arrays: element emissions concatenated in
order. -/
def specEmitArr : JsonArr → List String
  | .nil => []
  | .cons item rest => specEmit item ++ specEmitArr rest

/-- Claim-side emission for objects: keyed emission for long string values,
recursive emission otherwise, concatenated in field order. -/
def specEmitObj : JsonObj → List String
  | .nil => []
  | .cons k v rest =>
    (match v with
     | .str s => if 10 < s.length then [k ++ ": " ++ s] else [s]
     | _ => specEmit v)
      ++ specEmitObj rest
end

mutual
/-- Whether a JSON value contains any string leaf. -/
def hasStringLeaf : Json → Bool
  | .str _ => true
  | .num _ => false
  | .bool _ => false
  | .null => false
  | .arr items => hasStringLeafArr items
  | .obj fields => hasStringLeafObj fields

/-- Whether an array contains any string leaf. -/
def hasStringLeafArr : JsonArr → Bool
  | .nil => false
  | .cons item rest => hasStringLeaf item || hasStringLeafArr rest

/-- Whether an object contains any string leaf. -/
def hasStringLeafObj : JsonObj → Bool
  | .nil => false
  | .cons _ v rest => hasStringLeaf v || hasStringLeafObj rest
end

/-! ## Lemmas and claim theorems -/

example : splitIntoChunks [] 600 100 = [] := by decide

example : splitIntoChunks (List.replicate 30 'a') 600 100 = [List.replicate 30 'a'] := by decide

/-! ## Chunker lemmas -/

theorem lastMatchLE_le (text pat : List Char) : ∀ n : Nat, lastMatchLE text pat n ≤ (n : Int)
  | 0 => by unfold lastMatchLE; split <;> omega
  | n+1 => by
    unfold lastMatchLE
    split
    · omega
    · have h := lastMatchLE_le text pat n
      push_cast at h ⊢
      omega

theorem jsLastIndexOf_le (text pat : List Char) (pos : Int) (h : 0 ≤ pos) :
    jsLastIndexOf text pat pos ≤ pos := by
  unfold jsLastIndexOf
  rw [if_neg (by omega)]
  have h2 := lastMatchLE_le text pat (min pos.toNat text.length)
  omega

theorem findBreakIn_spec (text : List Char) (start : Int) (cs : Nat) (pos : Int) :
    ∀ l : List (List Char), findBreakIn text start cs pos l = -1 ∨
      ∃ bc ∈ l, findBreakIn text start cs pos l = jsLastIndexOf text bc pos + bc.length ∧
        2 * jsLastIndexOf text bc pos > 2 * start + (cs : Int)
  | [] => Or.inl rfl
  | bc :: rest => by
    unfold findBreakIn
    split
    · right
      exact ⟨bc, by simp, rfl, by assumption⟩
    · rcases findBreakIn_spec text start cs pos rest with h | ⟨bc', hmem, heq, hgt⟩
      · exact Or.inl h
      · exact Or.inr ⟨bc', by simp [hmem], heq, hgt⟩

theorem breakChars_len : ∀ bc ∈ breakChars, 1 ≤ bc.length ∧ bc.length ≤ 2 := by decide

theorem chunkEnd_progress (text : List Char) (cs ov : Nat) (start : Int)
    (h1 : 0 < ov) (h2 : 2 * ov ≤ cs) :
    start + 1 ≤ chunkEnd text cs start - ov := by
  unfold chunkEnd
  split
  · split
    · rename_i hlt hbb
      rcases findBreakIn_spec text start cs (start + cs) breakChars with h | ⟨bc, hmem, heq, hgt⟩
      · rw [findBreak] at hbb
        omega
      · rw [findBreak, heq]
        have hb := breakChars_len bc hmem
        omega
    · omega
  · omega

theorem chunkEnd_nonneg (text : List Char) (cs : Nat) (start : Int) (h : 0 ≤ start) :
    0 ≤ chunkEnd text cs start := by
  unfold chunkEnd
  split
  · split
    · rename_i _ hbb
      omega
    · positivity
  · positivity

theorem chunkEnd_cases (text : List Char) (cs : Nat) (start : Int) (h : 0 ≤ start) :
    chunkEnd text cs start = start + cs ∨
      ∃ bc ∈ breakChars, chunkEnd text cs start ≤ start + cs + bc.length := by
  unfold chunkEnd
  split
  · split
    · rename_i hlt hbb
      rcases findBreakIn_spec text start cs (start + cs) breakChars with hc | ⟨bc, hmem, heq, hgt⟩
      · rw [findBreak] at hbb
        omega
      · refine Or.inr ⟨bc, hmem, ?_⟩
        rw [findBreak, heq]
        have hle := jsLastIndexOf_le text bc (start + cs) (by positivity)
        omega
    · exact Or.inl rfl
  · exact Or.inl rfl

theorem jsSlice_length_le (text : List Char) (s e : Int) (hs : 0 ≤ s) (he : 0 ≤ e) :
    (jsSlice text s e).length ≤ (e - s).toNat := by
  unfold jsSlice
  simp only [if_neg (show ¬ s < 0 by omega), if_neg (show ¬ e < 0 by omega)]
  split
  · rename_i hlt
    rw [List.length_drop, List.length_take]
    omega
  · simp

theorem jsTrim_length_le (l : List Char) : (jsTrim l).length ≤ l.length := by
  unfold jsTrim
  rw [List.length_reverse]
  calc ((l.dropWhile Char.isWhitespace).reverse.dropWhile Char.isWhitespace).length
      ≤ (l.dropWhile Char.isWhitespace).reverse.length :=
        ((List.dropWhile_suffix _).sublist).length_le
    _ = (l.dropWhile Char.isWhitespace).length := List.length_reverse _
    _ ≤ l.length := ((List.dropWhile_suffix _).sublist).length_le

theorem chunkLoopI_stop (text : List Char) (cs ov fuel : Nat) (start : Int)
    (h : ¬ start < (text.length : Int)) :
    chunkLoopI text cs ov fuel start = some [] := by
  cases fuel <;> simp [chunkLoopI, h]

theorem chunkLoopI_isSome (text : List Char) (cs ov : Nat) (h1 : 0 < ov) (h2 : 2 * ov ≤ cs) :
    ∀ (fuel : Nat) (start : Int), (text.length : Int) ≤ start + fuel →
      (chunkLoopI text cs ov fuel start).isSome
  | 0, start, h => by
    rw [chunkLoopI_stop text cs ov 0 start (by omega)]
    rfl
  | fuel+1, start, h => by
    by_cases hlt : start < (text.length : Int)
    · simp only [chunkLoopI, if_pos hlt]
      rw [show ∀ (o : Option (List (Int × Int))) (f : List (Int × Int) → List (Int × Int)),
            (o.map f).isSome = o.isSome from fun o f => by cases o <;> rfl]
      refine chunkLoopI_isSome text cs ov h1 h2 fuel (chunkEnd text cs start - ov) ?_
      have hp := chunkEnd_progress text cs ov start h1 h2
      push_cast at h ⊢
      omega
    · rw [chunkLoopI_stop text cs ov (fuel+1) start hlt]
      rfl

theorem chunkLoopI_mem (text : List Char) (cs ov : Nat) (h1 : 0 < ov) (h2 : 2 * ov ≤ cs) :
    ∀ (fuel : Nat) (start : Int) (ivs : List (Int × Int)), 0 ≤ start →
      chunkLoopI text cs ov fuel start = some ivs →
      ∀ iv ∈ ivs, 0 ≤ iv.1 ∧ 0 ≤ iv.2 ∧
        (iv.2 = iv.1 + cs ∨ ∃ bc ∈ breakChars, iv.2 ≤ iv.1 + cs + bc.length)
  | 0, start, ivs, hs, heq => by
    unfold chunkLoopI at heq
    split at heq
    · exact absurd heq (by simp)
    · simp only [Option.some.injEq] at heq
      subst heq
      intro iv hiv
      exact absurd hiv (by simp)
  | fuel+1, start, ivs, hs, heq => by
    unfold chunkLoopI at heq
    split at heq
    · rw [Option.map_eq_some'] at heq
      obtain ⟨rest, hrest, hcons⟩ := heq
      subst hcons
      intro iv hiv
      rcases List.mem_cons.mp hiv with hhd | htl
      · subst hhd
        refine ⟨hs, chunkEnd_nonneg text cs start hs, ?_⟩
        exact chunkEnd_cases text cs start hs
      · have hs' : 0 ≤ chunkEnd text cs start - ov := by
          have := chunkEnd_progress text cs ov start h1 h2
          omega
        exact chunkLoopI_mem text cs ov h1 h2 fuel _ rest hs' hrest iv htl
    · simp only [Option.some.injEq] at heq
      subst heq
      intro iv hiv
      exact absurd hiv (by simp)

theorem chunkLoopI_chain (text : List Char) (cs ov : Nat) :
    ∀ (fuel : Nat) (start : Int) (ivs : List (Int × Int)),
      chunkLoopI text cs ov fuel start = some ivs →
      List.Chain' (fun p q : Int × Int => q.1 = p.2 - (ov : Int)) ivs ∧
        ∀ iv ∈ ivs.head?, iv.1 = start
  | 0, start, ivs, heq => by
    unfold chunkLoopI at heq
    split at heq
    · exact absurd heq (by simp)
    · simp only [Option.some.injEq] at heq
      subst heq
      exact ⟨List.chain'_nil, by simp⟩
  | fuel+1, start, ivs, heq => by
    unfold chunkLoopI at heq
    split at heq
    · rw [Option.map_eq_some'] at heq
      obtain ⟨rest, hrest, hcons⟩ := heq
      subst hcons
      obtain ⟨hchain, hhead⟩ := chunkLoopI_chain text cs ov fuel _ rest hrest
      constructor
      · rw [List.chain'_cons']
        refine ⟨?_, hchain⟩
        intro q hq
        rw [hhead q hq]
      · simp
    · simp only [Option.some.injEq] at heq
      subst heq
      exact ⟨List.chain'_nil, by simp⟩

theorem jsSlice_all (text : List Char) (e : Int) (h0 : 0 < text.length)
    (he : (text.length : Int) ≤ e) : jsSlice text 0 e = text := by
  unfold jsSlice
  simp only [if_neg (show ¬ (0:Int) < 0 by omega), if_neg (show ¬ e < 0 by omega)]
  rw [min_eq_left (by omega), min_eq_right he, if_pos (by omega)]
  simp

/-- C4 (counterexample): with `chunkSize = 8`, `overlap = 7` (so
`0 < overlap < chunkSize`) and `start = 0 < length(stallText)`, the scan loop
iteration computes `end - overlap = 0`, i.e. the new `start` does NOT
strictly exceed the previous `start`: `overlap < chunkSize` alone does not
guarantee forward progress. -/
theorem C4_counterexample :
    (0 < 7 ∧ 7 < 8 ∧ (0 : Int) < (stallText.length : Int)) ∧
      chunkEnd stallText 8 0 - 7 = 0 := by decide

/-- C4 (amended): forward progress of the scan loop needs the stronger bound
`2 * overlap ≤ chunkSize` (which the code's defaults `overlap = 100`,
`chunkSize = 600` satisfy): then every iteration strictly advances `start`
(`start + 1 ≤ end - overlap`), and the loop run from `start = 0` terminates
within `length(text) + 1` iterations. -/
theorem C4_amended (text : List Char) (cs ov : Nat) (start : Int)
    (h1 : 0 < ov) (h2 : 2 * ov ≤ cs) (_hs : start < (text.length : Int)) :
    start + 1 ≤ chunkEnd text cs start - ov ∧
      (chunkLoopI text cs ov (text.length + 1) 0).isSome := by
  refine ⟨chunkEnd_progress text cs ov start h1 h2, ?_⟩
  exact chunkLoopI_isSome text cs ov h1 h2 (text.length + 1) 0 (by push_cast; omega)

theorem C4_witness :
    (0 < 100 ∧ 2 * 100 ≤ 600 ∧ (0 : Int) < ((List.replicate 30 'a').length : Int)) ∧
      (0 + 1 ≤ chunkEnd (List.replicate 30 'a') 600 0 - 100 ∧
        (chunkLoopI (List.replicate 30 'a') 600 100 ((List.replicate 30 'a').length + 1)
            0).isSome) :=
  ⟨by decide, C4_amended (List.replicate 30 'a') 600 100 0 (by decide) (by decide) (by decide)⟩

/-- C5 (counterexample): for the 55-character text `'a' * 55` with
`chunkSize = 60`, `overlap = 30`, the text is non-empty, strictly shorter
than `chunkSize`, and its trimmed form passes the minimum-length filter, yet
`splitIntoChunks` returns TWO passages (lengths 55 and 25), not exactly one:
after emitting the whole text the loop re-enters at
`start = chunkSize - overlap = 30 < 55` and emits a residual tail chunk. -/
theorem C5_counterexample :
    (List.replicate 55 'a' ≠ [] ∧ (List.replicate 55 'a').length < 60 ∧
        20 < (jsTrim (List.replicate 55 'a')).length) ∧
      splitIntoChunks (List.replicate 55 'a') 60 30 ≠ [jsTrim (List.replicate 55 'a')] := by
    decide

/-- C5 (amended): `splitIntoChunks` on the empty string yields the empty
sequence, and a non-empty text of length at most `chunkSize - overlap`
yields exactly the whole trimmed text, kept iff it passes the
minimum-length filter.  (For lengths strictly between `chunkSize - overlap`
and `chunkSize` the loop re-enters and can emit a second residual passage,
so the bound `chunkSize - overlap` — not `chunkSize` — is the right one.) -/
theorem C5_amended (text : List Char) (cs ov : Nat)
    (h1 : 0 < ov) (h2 : text.length + ov ≤ cs) (h3 : text ≠ []) :
    splitIntoChunks [] cs ov = [] ∧
      splitIntoChunks text cs ov =
        if 20 < (jsTrim text).length then [jsTrim text] else [] := by
  constructor
  · unfold splitIntoChunks
    rw [chunkLoopI_stop _ _ _ _ _ (by simp)]
    rfl
  · have hlen : 0 < text.length := List.length_pos.mpr h3
    have he : chunkEnd text cs 0 = 0 + (cs : Int) := by
      unfold chunkEnd
      rw [if_neg (by omega)]
    have hstep : chunkLoopI text cs ov (text.length + 1) 0 = some [(0, chunkEnd text cs 0)] := by
      show (if (0 : Int) < (text.length : Int) then
          (chunkLoopI text cs ov text.length (chunkEnd text cs 0 - ov)).map
            (fun rest => ((0 : Int), chunkEnd text cs 0) :: rest)
        else some []) = _
      rw [if_pos (by exact_mod_cast hlen)]
      rw [chunkLoopI_stop _ _ _ _ _ (by rw [he]; omega)]
      rfl
    unfold splitIntoChunks
    rw [hstep]
    simp only [Option.map_some', Option.getD_some, List.map_cons, List.map_nil]
    have hsl : chunkOfInterval text (0, chunkEnd text cs 0) = jsTrim text := by
      unfold chunkOfInterval
      rw [he, jsSlice_all text _ hlen (by push_cast; omega)]
    rw [hsl]
    by_cases hf : 20 < (jsTrim text).length
    · rw [if_pos hf]
      simp [List.filter, hf]
    · rw [if_neg hf]
      simp [List.filter, hf]

theorem C5_witness :
    (0 < 30 ∧ (List.replicate 25 'a').length + 30 ≤ 60 ∧ List.replicate 25 'a' ≠ []) ∧
      (splitIntoChunks [] 60 30 = [] ∧
        splitIntoChunks (List.replicate 25 'a') 60 30 =
          if 20 < (jsTrim (List.replicate 25 'a')).length then [jsTrim (List.replicate 25 'a')]
          else []) :=
  ⟨by decide, C5_amended (List.replicate 25 'a') 60 30 (by decide) (by decide) (by decide)⟩

/-- C6: whenever the scan loop terminates (guaranteed here by `0 < overlap`
and `2 * overlap ≤ chunkSize`, satisfied by the code's defaults 600/100),
(i) every produced chunk has length at most `chunkSize`, or at most
`chunkSize` plus the length of a matched breakpoint delimiter;
(ii) every chunk returned by `splitIntoChunks` has trimmed length strictly
greater than 20; (iii) consecutive scan intervals overlap by a non-negative
amount of at most `overlap` characters (`end_i - start_{i+1} = overlap`). -/
theorem C6_theorem (text : List Char) (cs ov : Nat) (h1 : 0 < ov) (h2 : 2 * ov ≤ cs) :
    ∃ ivs, chunkLoopI text cs ov (text.length + 1) 0 = some ivs ∧
      splitIntoChunks text cs ov =
        (ivs.map (chunkOfInterval text)).filter (fun c => 20 < c.length) ∧
      (∀ iv ∈ ivs, (chunkOfInterval text iv).length ≤ cs ∨
        ∃ bc ∈ breakChars, (chunkOfInterval text iv).length ≤ cs + bc.length) ∧
      (∀ c ∈ splitIntoChunks text cs ov, 20 < c.length) ∧
      List.Chain' (fun p q : Int × Int => 0 ≤ p.2 - q.1 ∧ p.2 - q.1 ≤ (ov : Int)) ivs := by
  obtain ⟨ivs, hivs⟩ := Option.isSome_iff_exists.mp
    (chunkLoopI_isSome text cs ov h1 h2 (text.length + 1) 0 (by push_cast; omega))
  refine ⟨ivs, hivs, ?_, ?_, ?_, ?_⟩
  · unfold splitIntoChunks
    rw [hivs]
    rfl
  · intro iv hiv
    obtain ⟨hp1, hp2, hcase⟩ :=
      chunkLoopI_mem text cs ov h1 h2 (text.length + 1) 0 ivs (le_refl 0) hivs iv hiv
    have hlen : (chunkOfInterval text iv).length ≤ (iv.2 - iv.1).toNat :=
      le_trans (jsTrim_length_le _) (jsSlice_length_le text iv.1 iv.2 hp1 hp2)
    rcases hcase with hc | ⟨bc, hmem, hle⟩
    · left
      omega
    · right
      exact ⟨bc, hmem, by omega⟩
  · intro c hc
    unfold splitIntoChunks at hc
    rw [hivs] at hc
    simp only [Option.map_some', Option.getD_some] at hc
    have hf := List.of_mem_filter hc
    simpa using hf
  · exact ((chunkLoopI_chain text cs ov (text.length + 1) 0 ivs hivs).1).imp
      (fun {p q} h => by omega)

theorem C6_witness :
    (0 < 100 ∧ 2 * 100 ≤ 600) ∧
      (∃ ivs,
        chunkLoopI (List.replicate 30 'a') 600 100 ((List.replicate 30 'a').length + 1) 0 =
            some ivs ∧
          splitIntoChunks (List.replicate 30 'a') 600 100 =
            (ivs.map (chunkOfInterval (List.replicate 30 'a'))).filter
              (fun c => 20 < c.length) ∧
          (∀ iv ∈ ivs, (chunkOfInterval (List.replicate 30 'a') iv).length ≤ 600 ∨
            ∃ bc ∈ breakChars,
              (chunkOfInterval (List.replicate 30 'a') iv).length ≤ 600 + bc.length) ∧
          (∀ c ∈ splitIntoChunks (List.replicate 30 'a') 600 100, 20 < c.length) ∧
          List.Chain' (fun p q : Int × Int => 0 ≤ p.2 - q.1 ∧ p.2 - q.1 ≤ (100 : Int)) ivs) :=
  ⟨by decide, C6_theorem (List.replicate 30 'a') 600 100 (by decide) (by decide)⟩

/-! ## Ingestion lemmas -/

theorem recsFrom_source (p t : String) :
    ∀ (i : Nat) (cs : List (List Char)) (r : Record), r ∈ recsFrom p t i cs → r.source = p
  | _, [], r, hr => absurd hr (by simp [recsFrom])
  | i, c :: rest, r, hr => by
    unfold recsFrom at hr
    rcases List.mem_cons.mp hr with h | h
    · subst h
      rfl
    · exact recsFrom_source p t (i+1) rest r h

theorem recsFrom_chunkIndex (p t : String) :
    ∀ (i : Nat) (cs : List (List Char)),
      (recsFrom p t i cs).map (fun r => r.chunkIndex) = List.range' i cs.length
  | _, [] => by simp [recsFrom]
  | i, c :: rest => by
    unfold recsFrom
    rw [List.map_cons, recsFrom_chunkIndex p t (i+1) rest]
    rfl

theorem newRecords_source (f : PFile) : ∀ r ∈ newRecords f, r.source = f.path :=
  fun r hr => recsFrom_source f.path f.ftype 0 _ r hr

theorem newRecords_chunkIndex (f : PFile) :
    (newRecords f).map (fun r => r.chunkIndex) =
      List.range' 0 (splitIntoChunks f.content 600 100).length :=
  recsFrom_chunkIndex f.path f.ftype 0 _

theorem deleteSource_append (a b : List Record) (s : String) :
    deleteSource (a ++ b) s = deleteSource a s ++ deleteSource b s :=
  List.filter_append a b

theorem deleteSource_idem (db : List Record) (s : String) :
    deleteSource (deleteSource db s) s = deleteSource db s := by
  apply List.filter_eq_self.mpr
  intro r hr
  exact (List.mem_filter.mp hr).2

theorem deleteSource_filter_self (db : List Record) (s : String) :
    (deleteSource db s).filter (fun r => r.source = s) = [] := by
  rw [List.filter_eq_nil_iff]
  intro r hr
  have h2 := (List.mem_filter.mp hr).2
  simp only [decide_eq_true_eq] at h2 ⊢
  exact h2

theorem deleteSource_delete_new (f : PFile) : deleteSource (newRecords f) f.path = [] := by
  rw [deleteSource, List.filter_eq_nil_iff]
  intro r hr
  simp only [decide_eq_true_eq, not_not]
  exact newRecords_source f r hr

theorem filter_source_of_all {l : List Record} {s : String} (h : ∀ r ∈ l, r.source = s) :
    l.filter (fun r => r.source = s) = l := by
  apply List.filter_eq_self.mpr
  intro r hr
  simp only [decide_eq_true_eq]
  exact h r hr

theorem filter_ne_source_of_all {l : List Record} {s p : String} (h : ∀ r ∈ l, r.source = s)
    (hne : p ≠ s) : l.filter (fun r => r.source = p) = [] := by
  rw [List.filter_eq_nil_iff]
  intro r hr
  simp only [decide_eq_true_eq]
  rw [h r hr]
  exact fun hc => hne hc.symm

theorem ingestFile_state (db : List Record) (f : PFile) (failAt : Option Nat) :
    ∃ k : Nat, (ingestFile db f failAt).2 = deleteSource db f.path ++ (newRecords f).take k := by
  cases failAt with
  | none => exact ⟨(newRecords f).length, by simp [ingestFile]⟩
  | some i =>
    by_cases hi : i < (newRecords f).length
    · exact ⟨i, by simp [ingestFile, hi]⟩
    · exact ⟨(newRecords f).length, by simp [ingestFile, hi]⟩

/-- C2 (counterexample): ingesting `fileF` into a store holding one previous
record for the same source, with the embedding/insert of chunk 0 failing,
surfaces the failure BUT leaves the store changed: the source's old record
was already deleted and nothing was re-inserted, so the visible state is a
partial commit, not the pre-call state. -/
theorem C2_counterexample :
    (ingestFile [oldRec] fileF (some 0)).1 ≠ none ∧
      (ingestFile [oldRec] fileF (some 0)).2 ≠ [oldRec] := by decide

/-- C2 (amended): when embedding/insert of chunk `i` fails during
`ingestFile`, the failure is surfaced to the caller, but the store is NOT
left unchanged: the source's previous generation is already fully deleted
and exactly the new chunks before `i` are committed (a partial commit);
records of other sources are untouched. -/
theorem C2_amended (db : List Record) (f : PFile) (i : Nat)
    (h : i < (newRecords f).length) :
    (ingestFile db f (some i)).1 ≠ none ∧
      (ingestFile db f (some i)).2.filter (fun r => r.source = f.path) =
        (newRecords f).take i ∧
      (ingestFile db f (some i)).2.filter (fun r => r.source ≠ f.path) =
        db.filter (fun r => r.source ≠ f.path) := by
  have hst : (ingestFile db f (some i)).2 = deleteSource db f.path ++ (newRecords f).take i := by
    simp [ingestFile, h]
  have htake : ∀ r ∈ (newRecords f).take i, r.source = f.path :=
    fun r hr => newRecords_source f r (List.mem_of_mem_take hr)
  refine ⟨by simp [ingestFile, h], ?_, ?_⟩
  · rw [hst, List.filter_append, deleteSource_filter_self, filter_source_of_all htake]
    simp
  · rw [hst, List.filter_append]
    have h1 : (deleteSource db f.path).filter (fun r => r.source ≠ f.path) =
        deleteSource db f.path := deleteSource_idem db f.path
    have h2 : ((newRecords f).take i).filter (fun r => r.source ≠ f.path) = [] := by
      rw [List.filter_eq_nil_iff]
      intro r hr
      simp only [decide_eq_true_eq, not_not]
      exact htake r hr
    rw [h1, h2, List.append_nil]
    rfl

theorem C2_witness :
    0 < (newRecords fileF).length ∧
      ((ingestFile [oldRec] fileF (some 0)).1 ≠ none ∧
        (ingestFile [oldRec] fileF (some 0)).2.filter (fun r => r.source = fileF.path) =
          (newRecords fileF).take 0 ∧
        (ingestFile [oldRec] fileF (some 0)).2.filter (fun r => r.source ≠ fileF.path) =
          [oldRec].filter (fun r => r.source ≠ fileF.path)) :=
  ⟨by decide, C2_amended [oldRec] fileF 0 (by decide)⟩

/-- C3: re-ingesting the same unchanged file is idempotent — the store state
after two successful `ingestFile` calls equals the state after one, so in
particular the record count for that source is the same; and every
`ingestFile` call (successful or failed) preserves the invariant that at
most one generation of records exists per source (any two records of one
source have distinct ordinal indices). -/
theorem C3_theorem (db : List Record) (f : PFile) (failAt : Option Nat)
    (hdb : oneGeneration db) :
    (ingestFile ((ingestFile db f none).2) f none).2 = (ingestFile db f none).2 ∧
      ((ingestFile ((ingestFile db f none).2) f none).2.filter
          (fun r => r.source = f.path)).length =
        ((ingestFile db f none).2.filter (fun r => r.source = f.path)).length ∧
      (ingestFile db f none).2.filter (fun r => r.source = f.path) = newRecords f ∧
      oneGeneration (ingestFile db f failAt).2 := by
  have hstate : (ingestFile ((ingestFile db f none).2) f none).2 = (ingestFile db f none).2 := by
    show deleteSource (deleteSource db f.path ++ newRecords f) f.path ++ newRecords f =
      deleteSource db f.path ++ newRecords f
    rw [deleteSource_append, deleteSource_idem, deleteSource_delete_new, List.append_nil]
  refine ⟨hstate, by rw [hstate], ?_, ?_⟩
  · show (deleteSource db f.path ++ newRecords f).filter (fun r => r.source = f.path) =
      newRecords f
    rw [List.filter_append, deleteSource_filter_self,
      filter_source_of_all (newRecords_source f), List.nil_append]
  · obtain ⟨k, hX⟩ := ingestFile_state db f failAt
    rw [hX]
    intro p
    rw [List.filter_append, List.map_append]
    have htake : ∀ r ∈ (newRecords f).take k, r.source = f.path :=
      fun r hr => newRecords_source f r (List.mem_of_mem_take hr)
    by_cases hp : p = f.path
    · subst hp
      rw [deleteSource_filter_self, filter_source_of_all htake]
      simp only [List.map_nil, List.nil_append]
      rw [List.map_take, newRecords_chunkIndex]
      exact (List.take_sublist _ _).nodup (List.nodup_range' _ _)
    · rw [filter_ne_source_of_all htake hp]
      simp only [List.map_nil, List.append_nil]
      have hsub : List.Sublist ((deleteSource db f.path).filter (fun r => r.source = p))
          (db.filter (fun r => r.source = p)) := by
        show List.Sublist ((db.filter (fun r => r.source ≠ f.path)).filter
          (fun r => r.source = p)) _
        rw [List.filter_comm]
        exact List.filter_sublist _
      exact ((hsub.map _).nodup) (hdb p)

theorem C3_witness :
    oneGeneration [oldRec] ∧
      ((ingestFile ((ingestFile [oldRec] fileF none).2) fileF none).2 =
          (ingestFile [oldRec] fileF none).2 ∧
        ((ingestFile ((ingestFile [oldRec] fileF none).2) fileF none).2.filter
            (fun r => r.source = fileF.path)).length =
          ((ingestFile [oldRec] fileF none).2.filter
            (fun r => r.source = fileF.path)).length ∧
        (ingestFile [oldRec] fileF none).2.filter (fun r => r.source = fileF.path) =
          newRecords fileF ∧
        oneGeneration (ingestFile [oldRec] fileF (some 0)).2) :=
  ⟨by intro p; simp only [List.filter_cons, List.filter_nil]; split <;> simp,
    C3_theorem [oldRec] fileF (some 0)
      (by intro p; simp only [List.filter_cons, List.filter_nil]; split <;> simp)⟩

/-- C8 (counterexample): in a batch of two documents where the first fails,
the error propagates out of the CLI loop: the processed list is empty, and
the second document is never ingested (its source has no records in the
final state) — the pipeline does NOT continue with subsequent documents and
nothing is reported as merely "skipped". -/
theorem C8_counterexample :
    (ingestBatch [] [(fileF, some 0), (fileG, none)]).1 ≠ none ∧
      (ingestBatch [] [(fileF, some 0), (fileG, none)]).2.2 = [] ∧
      (ingestBatch [] [(fileF, some 0), (fileG, none)]).2.1.filter
          (fun r => r.source = fileG.path) = [] ∧
      newRecords fileG ≠ [] := by decide

/-- C8 (amended): a document failure aborts the ENTIRE remaining batch: the
error is surfaced, no subsequent document is processed, and the final store
state is exactly the state left by the failed `ingestFile` call. -/
theorem C8_amended (db : List Record) (f : PFile) (i : Nat)
    (rest : List (PFile × Option Nat)) (h : i < (newRecords f).length) :
    (ingestBatch db ((f, some i) :: rest)).1 ≠ none ∧
      (ingestBatch db ((f, some i) :: rest)).2.2 = [] ∧
      (ingestBatch db ((f, some i) :: rest)).2.1 = (ingestFile db f (some i)).2 := by
  have hf : ingestFile db f (some i) =
      (some ("Error ingesting file " ++ f.path),
        deleteSource db f.path ++ (newRecords f).take i) := by
    simp [ingestFile, h]
  unfold ingestBatch
  rw [hf]
  exact ⟨by simp, rfl, rfl⟩

theorem C8_witness :
    0 < (newRecords fileF).length ∧
      ((ingestBatch [] [(fileF, some 0), (fileG, none)]).1 ≠ none ∧
        (ingestBatch [] [(fileF, some 0), (fileG, none)]).2.2 = [] ∧
        (ingestBatch [] [(fileF, some 0), (fileG, none)]).2.1 =
          (ingestFile [] fileF (some 0)).2) :=
  ⟨by decide, C8_amended [] fileF 0 [(fileG, none)] (by decide)⟩

/-! ## Retrieval lemmas -/

theorem insertByDescSim_perm (r : SearchHit) :
    ∀ l : List SearchHit, List.Perm (insertByDescSim r l) (r :: l)
  | [] => List.Perm.refl _
  | x :: xs => by
    unfold insertByDescSim
    split
    · exact List.Perm.refl _
    · exact ((insertByDescSim_perm r xs).cons x).trans (List.Perm.swap r x xs)

theorem sortByDescSim_perm : ∀ l : List SearchHit, List.Perm (sortByDescSim l) l
  | [] => List.Perm.refl _
  | x :: xs =>
    (insertByDescSim_perm x (sortByDescSim xs)).trans ((sortByDescSim_perm xs).cons x)

theorem insertByDescSim_pairwise (r : SearchHit) :
    ∀ l : List SearchHit,
      l.Pairwise (fun a b => b.similarity ≤ a.similarity) →
      (insertByDescSim r l).Pairwise (fun a b => b.similarity ≤ a.similarity)
  | [], _ => List.pairwise_singleton _ r
  | x :: xs, h => by
    unfold insertByDescSim
    obtain ⟨hx, hxs⟩ := List.pairwise_cons.mp h
    split
    · rename_i hlt
      refine List.pairwise_cons.mpr ⟨?_, h⟩
      intro b hb
      rcases List.mem_cons.mp hb with hbx | hbxs
      · subst hbx
        exact le_of_lt hlt
      · exact le_trans (hx b hbxs) (le_of_lt hlt)
    · rename_i hnlt
      refine List.pairwise_cons.mpr ⟨?_, insertByDescSim_pairwise r xs hxs⟩
      intro b hb
      rcases List.mem_cons.mp ((insertByDescSim_perm r xs).mem_iff.mp hb) with hbr | hbxs
      · subst hbr
        exact le_of_not_lt hnlt
      · exact hx b hbxs

theorem sortByDescSim_pairwise :
    ∀ l : List SearchHit,
      (sortByDescSim l).Pairwise (fun a b => b.similarity ≤ a.similarity)
  | [] => List.Pairwise.nil
  | x :: xs => insertByDescSim_pairwise x (sortByDescSim xs) (sortByDescSim_pairwise xs)

theorem searchSimilarChunks_pairwise (db : List Record) (sim : Record → ℚ) (k : Nat) :
    (searchSimilarChunks db sim k).Pairwise (fun a b => b.similarity ≤ a.similarity) :=
  (sortByDescSim_pairwise (db.map (fun r => ⟨r, sim r⟩))).sublist (List.take_sublist k _)

theorem mem_jsSetDedupAux :
    ∀ (l seen : List String) (s : String),
      s ∈ jsSetDedupAux seen l ↔ s ∈ l ∧ s ∉ seen
  | [], seen, s => by simp [jsSetDedupAux]
  | x :: xs, seen, s => by
    unfold jsSetDedupAux
    by_cases hx : x ∈ seen
    · rw [if_pos hx, mem_jsSetDedupAux xs seen s]
      constructor
      · rintro ⟨h1, h2⟩
        exact ⟨List.mem_cons_of_mem x h1, h2⟩
      · rintro ⟨h1, h2⟩
        rcases List.mem_cons.mp h1 with rfl | h1
        · exact absurd hx h2
        · exact ⟨h1, h2⟩
    · rw [if_neg hx]
      by_cases hs : s = x
      · subst hs
        simp [hx]
      · have ih := mem_jsSetDedupAux xs (x :: seen) s
        simp [List.mem_cons, hs, ih]

theorem jsSetDedupAux_nodup :
    ∀ (l seen : List String), (jsSetDedupAux seen l).Nodup
  | [], seen => by simp [jsSetDedupAux]
  | x :: xs, seen => by
    unfold jsSetDedupAux
    by_cases hx : x ∈ seen
    · rw [if_pos hx]
      exact jsSetDedupAux_nodup xs seen
    · rw [if_neg hx]
      refine List.nodup_cons.mpr ⟨?_, jsSetDedupAux_nodup xs (x :: seen)⟩
      intro hc
      exact ((mem_jsSetDedupAux xs (x :: seen) x).mp hc).2 (List.mem_cons_self x seen)

theorem mem_jsSetDedup (l : List String) (s : String) : s ∈ jsSetDedup l ↔ s ∈ l := by
  rw [jsSetDedup, mem_jsSetDedupAux]
  simp

theorem jsSetDedup_nodup (l : List String) : (jsSetDedup l).Nodup :=
  jsSetDedupAux_nodup l []

/-- C1: if the search returns no results, or every retrieved similarity is
below the relevance threshold `0.3` (equivalently: the best is, since the
third conjunct shows the top-ranked result bounds all retrieved
similarities), then `askQuestion` returns the "no relevant information"
sentinel and the Generation Client is never invoked. -/
theorem C1_theorem (db : List Record) (sim : Record → ℚ) (gen : String → String)
    (q : String) (k : Nat) (hne : db.length ≠ 0)
    (h : searchSimilarChunks db sim k = [] ∨
      ∀ hit ∈ searchSimilarChunks db sim k, hit.similarity < relevanceThreshold) :
    (askQuestion db sim gen q k).result = noRelevantMsg ∧
      (askQuestion db sim gen q k).genCalls = 0 ∧
      ∀ hit ∈ searchSimilarChunks db sim k,
        hit.similarity ≤ ((searchSimilarChunks db sim k).headI).similarity := by
  have hbest : ∀ hit ∈ searchSimilarChunks db sim k,
      hit.similarity ≤ ((searchSimilarChunks db sim k).headI).similarity := by
    intro hit hhit
    have hsorted := searchSimilarChunks_pairwise db sim k
    cases hh : searchSimilarChunks db sim k with
    | nil =>
      rw [hh] at hhit
      exact absurd hhit (by simp)
    | cons r0 rest =>
      rw [hh] at hhit hsorted
      show hit.similarity ≤ r0.similarity
      rcases List.mem_cons.mp hhit with h1 | h1
      · subst h1
        exact le_refl _
      · exact (List.pairwise_cons.mp hsorted).1 hit h1
  have hgate : (searchSimilarChunks db sim k).length = 0 ∨
      ((searchSimilarChunks db sim k).headI).similarity < relevanceThreshold := by
    rcases h with hnil | hall
    · left
      rw [hnil]
      rfl
    · cases hh : searchSimilarChunks db sim k with
      | nil => simp
      | cons r0 rest =>
        right
        refine hall _ ?_
        rw [hh]
        exact List.mem_cons_self r0 rest
  refine ⟨?_, ?_, hbest⟩ <;> simp only [askQuestion, if_neg hne, if_pos hgate]

theorem C1_witness :
    ([recA].length ≠ 0 ∧
      (searchSimilarChunks [recA] (fun _ => (0 : ℚ)) 4 = [] ∨
        ∀ hit ∈ searchSimilarChunks [recA] (fun _ => (0 : ℚ)) 4,
          hit.similarity < relevanceThreshold)) ∧
      ((askQuestion [recA] (fun _ => (0 : ℚ)) (fun _ => "ans") "q" 4).result =
          noRelevantMsg ∧
        (askQuestion [recA] (fun _ => (0 : ℚ)) (fun _ => "ans") "q" 4).genCalls = 0 ∧
        ∀ hit ∈ searchSimilarChunks [recA] (fun _ => (0 : ℚ)) 4,
          hit.similarity ≤
            ((searchSimilarChunks [recA] (fun _ => (0 : ℚ)) 4).headI).similarity) :=
  ⟨⟨by decide, by decide⟩,
    C1_theorem [recA] (fun _ => (0 : ℚ)) (fun _ => "ans") "q" 4 (by decide) (by decide)⟩

/-- C9: on an empty store `askQuestion` returns the "no documents ingested"
sentinel and invokes neither the Embedding Client nor the Generation
Client. -/
theorem C9_theorem (db : List Record) (sim : Record → ℚ) (gen : String → String)
    (q : String) (k : Nat) (h : db.length = 0) :
    (askQuestion db sim gen q k).result = noDocsMsg ∧
      (askQuestion db sim gen q k).embedCalls = 0 ∧
      (askQuestion db sim gen q k).genCalls = 0 := by
  refine ⟨?_, ?_, ?_⟩ <;> simp only [askQuestion, if_pos h]

theorem C9_witness :
    (([] : List Record).length = 0) ∧
      ((askQuestion [] (fun _ => (0 : ℚ)) (fun _ => "ans") "q" 4).result = noDocsMsg ∧
        (askQuestion [] (fun _ => (0 : ℚ)) (fun _ => "ans") "q" 4).embedCalls = 0 ∧
        (askQuestion [] (fun _ => (0 : ℚ)) (fun _ => "ans") "q" 4).genCalls = 0) :=
  ⟨by decide, C9_theorem [] (fun _ => (0 : ℚ)) (fun _ => "ans") "q" 4 (by decide)⟩

theorem relevanceThreshold_eq : relevanceThreshold = (3 : ℚ)/10 := by
  rw [relevanceThreshold, Rat.mk'_eq_divInt, Rat.divInt_eq_div]
  norm_num

/-- C7 (counterexample): with `recA` at similarity 0.9 and `recB` at 0.1,
the generation is invoked (the top result passes the gate) and BOTH chunks
are placed in the context; the appended source list is
`["a.txt", "b.txt"]`, but the sources of the chunks that individually
passed the relevance threshold and were included in the context are just
`["a.txt"]` — the appended list contains MORE than the passed set, because
only the top result is checked against the threshold. -/
theorem C7_counterexample :
    (askQuestion [recA, recB] simAB (fun _ => "ans") "q" 4).genCalls = 1 ∧
      (askQuestion [recA, recB] simAB (fun _ => "ans") "q" 4).sourcesAppended =
        ["a.txt", "b.txt"] ∧
      jsSetDedup (((askQuestion [recA, recB] simAB (fun _ => "ans") "q" 4).contextRows.filter
          (fun h => relevanceThreshold ≤ h.similarity)).map
        (fun h => basename h.row.source)) = ["a.txt"] ∧
      (["a.txt", "b.txt"] : List String) ≠ ["a.txt"] := by decide

/-- C7 (amended): whenever the Generation Client is invoked, the source
list appended to the answer is exactly the deduplicated (first-occurrence,
rank-order-preserving) basenames of ALL chunks included in the generation
context — and those context chunks are exactly the retrieved rows, gated
only by the top similarity, not individually re-checked against the
relevance threshold. -/
theorem C7_amended (db : List Record) (sim : Record → ℚ) (gen : String → String)
    (q : String) (k : Nat) (h : (askQuestion db sim gen q k).genCalls = 1) :
    (askQuestion db sim gen q k).sourcesAppended =
      jsSetDedup ((askQuestion db sim gen q k).contextRows.map
        (fun x => basename x.row.source)) ∧
      (askQuestion db sim gen q k).sourcesAppended.Nodup ∧
      (∀ s : String, s ∈ (askQuestion db sim gen q k).sourcesAppended ↔
        s ∈ (askQuestion db sim gen q k).contextRows.map (fun x => basename x.row.source)) ∧
      (askQuestion db sim gen q k).contextRows = searchSimilarChunks db sim k := by
  unfold askQuestion at h ⊢
  split at h
  · exact absurd h (by simp)
  · split at h
    · exact absurd h (by simp)
    · rename_i h1 h2
      rw [if_neg h1, if_neg h2]
      refine ⟨rfl, jsSetDedup_nodup _, ?_, rfl⟩
      intro s
      exact mem_jsSetDedup _ s

theorem C7_witness :
    (askQuestion [recA, recB] simAB (fun _ => "ans") "q" 2).genCalls = 1 ∧
      ((askQuestion [recA, recB] simAB (fun _ => "ans") "q" 2).sourcesAppended =
        jsSetDedup ((askQuestion [recA, recB] simAB (fun _ => "ans") "q" 2).contextRows.map
          (fun x => basename x.row.source)) ∧
      (askQuestion [recA, recB] simAB (fun _ => "ans") "q" 2).sourcesAppended.Nodup ∧
      (∀ s : String,
        s ∈ (askQuestion [recA, recB] simAB (fun _ => "ans") "q" 2).sourcesAppended ↔
          s ∈ (askQuestion [recA, recB] simAB (fun _ => "ans") "q" 2).contextRows.map
            (fun x => basename x.row.source)) ∧
      (askQuestion [recA, recB] simAB (fun _ => "ans") "q" 2).contextRows =
        searchSimilarChunks [recA, recB] simAB 2) :=
  ⟨by decide, C7_amended [recA, recB] simAB (fun _ => "ans") "q" 2 (by decide)⟩

mutual
theorem extractTextJ_eq (pfx : String) : ∀ j : Json, extractTextJ pfx j = specEmit j
  | .str _ => rfl
  | .num _ => rfl
  | .bool _ => rfl
  | .null => rfl
  | .arr items => extractTextArr_eq pfx 0 items
  | .obj fields => extractTextObj_eq pfx fields

theorem extractTextArr_eq (pfx : String) (i : Nat) :
    ∀ l : JsonArr, extractTextArr pfx i l = specEmitArr l
  | .nil => rfl
  | .cons item rest => by
    show extractTextJ (pfx ++ "[" ++ toString i ++ "]") item ++ extractTextArr pfx (i+1) rest
      = specEmit item ++ specEmitArr rest
    rw [extractTextJ_eq (pfx ++ "[" ++ toString i ++ "]") item,
      extractTextArr_eq pfx (i+1) rest]

theorem extractTextObj_eq (pfx : String) :
    ∀ l : JsonObj, extractTextObj pfx l = specEmitObj l
  | .nil => rfl
  | .cons k v rest => by
    cases v with
    | str s =>
      show (if 10 < s.length then [k ++ ": " ++ s] else [s]) ++ extractTextObj pfx rest
        = (if 10 < s.length then [k ++ ": " ++ s] else [s]) ++ specEmitObj rest
      rw [extractTextObj_eq pfx rest]
    | num n =>
      show extractTextJ (if pfx = "" then k else pfx ++ "." ++ k) (.num n)
          ++ extractTextObj pfx rest
        = specEmit (.num n) ++ specEmitObj rest
      rw [extractTextJ_eq (if pfx = "" then k else pfx ++ "." ++ k) (.num n),
        extractTextObj_eq pfx rest]
    | bool b =>
      show extractTextJ (if pfx = "" then k else pfx ++ "." ++ k) (.bool b)
          ++ extractTextObj pfx rest
        = specEmit (.bool b) ++ specEmitObj rest
      rw [extractTextJ_eq (if pfx = "" then k else pfx ++ "." ++ k) (.bool b),
        extractTextObj_eq pfx rest]
    | null =>
      show extractTextJ (if pfx = "" then k else pfx ++ "." ++ k) .null
          ++ extractTextObj pfx rest
        = specEmit .null ++ specEmitObj rest
      rw [extractTextJ_eq (if pfx = "" then k else pfx ++ "." ++ k) .null,
        extractTextObj_eq pfx rest]
    | arr items =>
      show extractTextJ (if pfx = "" then k else pfx ++ "." ++ k) (.arr items)
          ++ extractTextObj pfx rest
        = specEmit (.arr items) ++ specEmitObj rest
      rw [extractTextJ_eq (if pfx = "" then k else pfx ++ "." ++ k) (.arr items),
        extractTextObj_eq pfx rest]
    | obj fields =>
      show extractTextJ (if pfx = "" then k else pfx ++ "." ++ k) (.obj fields)
          ++ extractTextObj pfx rest
        = specEmit (.obj fields) ++ specEmitObj rest
      rw [extractTextJ_eq (if pfx = "" then k else pfx ++ "." ++ k) (.obj fields),
        extractTextObj_eq pfx rest]
end

mutual
theorem specEmit_eq_nil : ∀ j : Json, hasStringLeaf j = false → specEmit j = []
  | .num _, _ => rfl
  | .bool _, _ => rfl
  | .null, _ => rfl
  | .arr items, h => specEmitArr_eq_nil items h
  | .obj fields, h => specEmitObj_eq_nil fields h

theorem specEmitArr_eq_nil : ∀ l : JsonArr, hasStringLeafArr l = false → specEmitArr l = []
  | .nil, _ => rfl
  | .cons item rest, h => by
    have h2 := Bool.or_eq_false_iff.mp h
    show specEmit item ++ specEmitArr rest = []
    rw [specEmit_eq_nil item h2.1, specEmitArr_eq_nil rest h2.2]
    rfl

theorem specEmitObj_eq_nil : ∀ l : JsonObj, hasStringLeafObj l = false → specEmitObj l = []
  | .nil, _ => rfl
  | .cons k v rest, h => by
    have h2 := Bool.or_eq_false_iff.mp h
    cases v with
    | str s => exact absurd h2.1 (by simp [hasStringLeaf])
    | num n =>
      show specEmit (.num n) ++ specEmitObj rest = []
      rw [specEmit_eq_nil (.num n) h2.1, specEmitObj_eq_nil rest h2.2]
      rfl
    | bool b =>
      show specEmit (.bool b) ++ specEmitObj rest = []
      rw [specEmit_eq_nil (.bool b) h2.1, specEmitObj_eq_nil rest h2.2]
      rfl
    | null =>
      show specEmit .null ++ specEmitObj rest = []
      rw [specEmit_eq_nil .null h2.1, specEmitObj_eq_nil rest h2.2]
      rfl
    | arr items =>
      show specEmit (.arr items) ++ specEmitObj rest = []
      rw [specEmit_eq_nil (.arr items) h2.1, specEmitObj_eq_nil rest h2.2]
      rfl
    | obj fields =>
      show specEmit (.obj fields) ++ specEmitObj rest = []
      rw [specEmit_eq_nil (.obj fields) h2.1, specEmitObj_eq_nil rest h2.2]
      rfl
end

/-- C10: `extractTextFromJson` performs exactly the deterministic
depth-first document-order traversal described by `specEmit` — object
entries with string values longer than 10 characters are emitted as
`key: value`, every other string leaf (array elements, short object-entry
strings, a top-level string) is emitted bare — and the result is those
strings joined by `"\n\n"`; in particular a value with no string leaf gives
the empty string. -/
theorem C10_theorem (j : Json) :
    extractTextFromJson j = String.intercalate "\n\n" (specEmit j) ∧
      (hasStringLeaf j = false → extractTextFromJson j = "") := by
  have h1 : extractTextFromJson j = String.intercalate "\n\n" (specEmit j) := by
    rw [extractTextFromJson, extractTextJ_eq]
  refine ⟨h1, fun h => ?_⟩
  rw [h1, specEmit_eq_nil j h]
  rfl

theorem C10_witness :
    hasStringLeaf (Json.num 3) = false ∧
      (extractTextFromJson (Json.num 3) =
          String.intercalate "\n\n" (specEmit (Json.num 3)) ∧
        extractTextFromJson (Json.num 3) = "") :=
  ⟨rfl, (C10_theorem (Json.num 3)).1, (C10_theorem (Json.num 3)).2 rfl⟩
